import Mathlib

/-!
Verification of the secure-dns-resolver orchestration core and ECH parser.

The embedding follows `src/lib.rs`, `src/resolver.rs` and `src/ech.rs`:
pure data types are translated directly; the asynchronous transport layer
(DoH/DoT/DoH3, external to the core per the spec) is abstracted as result
oracles; tokio task spawning and joining is modelled by explicit outcome
functions indexed by spawn order; `futures::future::select_ok` is modelled
by folding the per-provider attempt results in completion order.
Machine integers (`u16`, byte values) are `Nat` with explicit arithmetic;
fallible paths return `Except`; a Rust slice-index panic is modelled as
`Except.error ()` so that panic-freedom is a provable statement.
-/

set_option maxRecDepth 8192

namespace SecureDns

/-- DNS resolution protocol (`src/lib.rs`, enum `Protocol`). -/
inductive Protocol where
  | Doh
  | Dot
  | Doh3
deriving DecidableEq, Repr

/-- DNS provider (`src/lib.rs`, enum `Provider`). -/
inductive Provider where
  | Cloudflare
  | Google
  | Quad9
  | NextDns
deriving DecidableEq, Repr

/-- List of all available providers (`src/lib.rs`, `Provider::all`). -/
def Provider.all : List Provider :=
  [Provider.Cloudflare, Provider.Google, Provider.Quad9, Provider.NextDns]

/-- DNS record type (`src/lib.rs`, enum `RecordType`). -/
inductive RecordType where
  | A
  | AAAA
  | CNAME
  | MX
  | TXT
  | NS
  | HTTPS
  | SVCB
deriving DecidableEq, Repr

/-- Convert record type to DNS type code (`src/lib.rs`, `RecordType::to_type_code`). -/
def RecordType.to_type_code : RecordType → Nat
  | RecordType.A => 1
  | RecordType.AAAA => 28
  | RecordType.CNAME => 5
  | RecordType.MX => 15
  | RecordType.TXT => 16
  | RecordType.NS => 2
  | RecordType.HTTPS => 65
  | RecordType.SVCB => 64

/-- Convert DNS type code to record type name (`src/lib.rs`, `RecordType::from_code`).
Note the source returns a `&'static str` name, not a `RecordType` value. -/
def RecordType.from_code (code : Nat) : String :=
  if code = 1 then "A"
  else if code = 28 then "AAAA"
  else if code = 5 then "CNAME"
  else if code = 15 then "MX"
  else if code = 16 then "TXT"
  else if code = 2 then "NS"
  else if code = 65 then "HTTPS"
  else if code = 64 then "SVCB"
  else "UNKNOWN"

/-- Display name of a record type (`src/lib.rs`, `impl fmt::Display for RecordType`). -/
def RecordType.displayName : RecordType → String
  | RecordType.A => "A"
  | RecordType.AAAA => "AAAA"
  | RecordType.CNAME => "CNAME"
  | RecordType.MX => "MX"
  | RecordType.TXT => "TXT"
  | RecordType.NS => "NS"
  | RecordType.HTTPS => "HTTPS"
  | RecordType.SVCB => "SVCB"

/-- The record type carrying a given display name, when one exists: the inverse
of the `Display` implementation in `src/lib.rs`, used to read the name returned
by `RecordType::from_code` back as a record type. -/
def RecordType.ofName (s : String) : Option RecordType :=
  if s = "A" then some RecordType.A
  else if s = "AAAA" then some RecordType.AAAA
  else if s = "CNAME" then some RecordType.CNAME
  else if s = "MX" then some RecordType.MX
  else if s = "TXT" then some RecordType.TXT
  else if s = "NS" then some RecordType.NS
  else if s = "HTTPS" then some RecordType.HTTPS
  else if s = "SVCB" then some RecordType.SVCB
  else none

end SecureDns

namespace SecureDns

/-- External transport capability (spec §6; implemented by the excluded
`doh.rs`/`dot.rs`/`doh3.rs` modules): for a provider, protocol, hostname and
numeric record-type code, either decoded record strings (`resolve`) or raw
answer bytes (`resolveRaw`), or an error string. Errors in the source are
`anyhow::Error` values, modelled as strings. -/
structure Transport where
  resolve : Provider → Protocol → String → Nat → Except String (List String)
  resolveRaw : Provider → Protocol → String → Nat → Except String (List Nat)

/-- Spawn one task per hostname in input order and await the handles in that
same order (the spawn/collect loops shared by the four batch operations in
`resolver.rs`). `body i h` is the outcome the unit spawned i-th produces by
querying hostname `h`; `crash i = some e` means awaiting that unit's handle
yields a `JoinError` `e`, converted by the source into
`anyhow!("Task failed: {}", e)`. `completionOrder` records the real-time order
in which the units finish; awaiting a specific `JoinHandle` returns that
task's own outcome, so the collection loop never consults it. -/
def spawnCollect (body : Nat → String → Except String α) (crash : Nat → Option String)
    (completionOrder : List Nat) (hostnames : List String) : List (Except String α) :=
  hostnames.enum.map (fun p =>
    match crash p.1 with
    | some e => Except.error ("Task failed: " ++ e)
    | none => body p.1 p.2)

/-- The per-provider attempt raced by `race_providers` (`resolver.rs`): resolve
the hostname through the given provider; a success is wrapped together with
the provider and the attempt's elapsed time, an error is passed through. -/
def raceAttempt (t : Transport) (protocol : Protocol) (hostname : String) (type_code : Nat)
    (elapsed : Provider → Nat) (p : Provider) : Except String (List String × Provider × Nat) :=
  (t.resolve p protocol hostname type_code).map (fun addresses => (addresses, p, elapsed p))

/-- Raw-bytes variant of `raceAttempt` (`race_providers_raw` in `resolver.rs`). -/
def raceAttemptRaw (t : Transport) (protocol : Protocol) (hostname : String) (type_code : Nat)
    (elapsed : Provider → Nat) (p : Provider) : Except String (List Nat × Provider × Nat) :=
  (t.resolveRaw p protocol hostname type_code).map (fun data => (data, p, elapsed p))

/-- Model of `futures::future::select_ok` over the per-provider attempt
futures: the attempts complete in the order listed; the first successful
completion wins, and when every attempt fails the error of the last attempt
to complete is returned. The empty case is unreachable because the caller
checks `futures.is_empty()` first. -/
def selectOk (att : Provider → Except String α) : List Provider → Except String α
  | [] => Except.error ""
  | [p] => att p
  | p :: q :: rest =>
      match att p with
      | Except.ok v => Except.ok v
      | Except.error _ => selectOk att (q :: rest)

/-- Race a hostname across all providers (`resolver.rs`, `race_providers`):
one attempt per provider in `Provider::all()`, joined by `select_ok`;
`completionOrder` is the order in which the attempts complete (a permutation
of `Provider.all` under the intended scheduler), `elapsed p` the elapsed time
of provider `p`'s attempt. On total failure the last-observed error is wrapped
as `All providers failed: …`. -/
def race_providers (t : Transport) (protocol : Protocol) (hostname : String) (type_code : Nat)
    (completionOrder : List Provider) (elapsed : Provider → Nat) :
    Except String (List String × Provider × Nat) :=
  if Provider.all.isEmpty then Except.error "No providers available"
  else
    match selectOk (raceAttempt t protocol hostname type_code elapsed) completionOrder with
    | Except.ok r => Except.ok r
    | Except.error e => Except.error ("All providers failed: " ++ e)

/-- Raw-bytes variant of `race_providers` (`resolver.rs`, `race_providers_raw`). -/
def race_providers_raw (t : Transport) (protocol : Protocol) (hostname : String) (type_code : Nat)
    (completionOrder : List Provider) (elapsed : Provider → Nat) :
    Except String (List Nat × Provider × Nat) :=
  if Provider.all.isEmpty then Except.error "No providers available"
  else
    match selectOk (raceAttemptRaw t protocol hostname type_code elapsed) completionOrder with
    | Except.ok r => Except.ok r
    | Except.error e => Except.error ("All providers failed: " ++ e)

/-- Resolve all hostnames concurrently using a single provider
(`resolver.rs`, `DnsResolver::resolve_batch`). -/
def resolve_batch (t : Transport) (crash : Nat → Option String) (completionOrder : List Nat)
    (hostnames : List String) (provider : Provider) (protocol : Protocol)
    (record_type : RecordType) : List (Except String (List String)) :=
  spawnCollect (fun _ h => t.resolve provider protocol h record_type.to_type_code)
    crash completionOrder hostnames

/-- Resolve batch returning raw record data (`resolver.rs`,
`DnsResolver::resolve_batch_raw`). -/
def resolve_batch_raw (t : Transport) (crash : Nat → Option String) (completionOrder : List Nat)
    (hostnames : List String) (provider : Provider) (protocol : Protocol)
    (type_code : Nat) : List (Except String (List Nat)) :=
  spawnCollect (fun _ h => t.resolveRaw provider protocol h type_code)
    crash completionOrder hostnames

/-- Race mode over a batch (`resolver.rs`, `DnsResolver::resolve_batch_race`):
each hostname's unit races all providers; `provOrder i` and `elapsed i` are the
provider completion order and per-provider elapsed times inside unit `i`. -/
def resolve_batch_race (t : Transport) (crash : Nat → Option String)
    (completionOrder : List Nat) (provOrder : Nat → List Provider)
    (elapsed : Nat → Provider → Nat) (hostnames : List String) (protocol : Protocol)
    (record_type : RecordType) : List (Except String (List String × Provider × Nat)) :=
  spawnCollect
    (fun i h => race_providers t protocol h record_type.to_type_code (provOrder i) (elapsed i))
    crash completionOrder hostnames

/-- Raw-bytes race mode over a batch (`resolver.rs`,
`DnsResolver::resolve_batch_race_raw`). -/
def resolve_batch_race_raw (t : Transport) (crash : Nat → Option String)
    (completionOrder : List Nat) (provOrder : Nat → List Provider)
    (elapsed : Nat → Provider → Nat) (hostnames : List String) (protocol : Protocol)
    (type_code : Nat) : List (Except String (List Nat × Provider × Nat)) :=
  spawnCollect
    (fun i h => race_providers_raw t protocol h type_code (provOrder i) (elapsed i))
    crash completionOrder hostnames

/-- Race a single hostname across all providers (`resolver.rs`,
`DnsResolver::resolve_race`), delegating to `race_providers`. -/
def resolve_race (t : Transport) (hostname : String) (protocol : Protocol)
    (record_type : RecordType) (completionOrder : List Provider)
    (elapsed : Provider → Nat) : Except String (List String × Provider × Nat) :=
  race_providers t protocol hostname record_type.to_type_code completionOrder elapsed

end SecureDns

namespace SecureDns

theorem spawnCollect_length (body : Nat → String → Except String α)
    (crash : Nat → Option String) (ord : List Nat) (hostnames : List String) :
    (spawnCollect body crash ord hostnames).length = hostnames.length := by
  simp [spawnCollect]

theorem spawnCollect_get? (body : Nat → String → Except String α)
    (crash : Nat → Option String) (ord : List Nat) (hostnames : List String)
    (i : Nat) (h : String) (hh : hostnames[i]? = some h) :
    (spawnCollect body crash ord hostnames)[i]? =
      some (match crash i with
            | some e => Except.error ("Task failed: " ++ e)
            | none => body i h) := by
  simp [spawnCollect, List.getElem?_map, List.getElem?_enum, hh]

/-- Transport oracle answering every query with fixed values, used to
instantiate universally quantified statements at concrete inputs. -/
def constTransport (records : List String) (bytes : List Nat) : Transport :=
  { resolve := fun _ _ _ _ => Except.ok records
    resolveRaw := fun _ _ _ _ => Except.ok bytes }

/-- Claim C1: for every input hostname list (including lengths 0 and 1),
`resolve_batch`, `resolve_batch_raw`, `resolve_batch_race` and
`resolve_batch_race_raw` return a result list of the same length whose i-th
element is the outcome for the i-th input hostname (the i-th unit's join
result), and the returned list does not depend on the order in which the
concurrent per-hostname units complete. -/
theorem batch_preserves_order
    (t : Transport) (crash : Nat → Option String) (ord : List Nat)
    (provOrder : Nat → List Provider) (elapsed : Nat → Provider → Nat)
    (hostnames : List String) (provider : Provider) (protocol : Protocol)
    (record_type : RecordType) (type_code : Nat) :
    ((resolve_batch t crash ord hostnames provider protocol record_type).length
        = hostnames.length ∧
      (resolve_batch_raw t crash ord hostnames provider protocol type_code).length
        = hostnames.length ∧
      (resolve_batch_race t crash ord provOrder elapsed hostnames protocol record_type).length
        = hostnames.length ∧
      (resolve_batch_race_raw t crash ord provOrder elapsed hostnames protocol type_code).length
        = hostnames.length) ∧
    (∀ i h, hostnames[i]? = some h →
      (resolve_batch t crash ord hostnames provider protocol record_type)[i]? =
        some (match crash i with
              | some e => Except.error ("Task failed: " ++ e)
              | none => t.resolve provider protocol h record_type.to_type_code) ∧
      (resolve_batch_raw t crash ord hostnames provider protocol type_code)[i]? =
        some (match crash i with
              | some e => Except.error ("Task failed: " ++ e)
              | none => t.resolveRaw provider protocol h type_code) ∧
      (resolve_batch_race t crash ord provOrder elapsed hostnames protocol record_type)[i]? =
        some (match crash i with
              | some e => Except.error ("Task failed: " ++ e)
              | none => race_providers t protocol h record_type.to_type_code
                  (provOrder i) (elapsed i)) ∧
      (resolve_batch_race_raw t crash ord provOrder elapsed hostnames protocol type_code)[i]? =
        some (match crash i with
              | some e => Except.error ("Task failed: " ++ e)
              | none => race_providers_raw t protocol h type_code
                  (provOrder i) (elapsed i))) ∧
    (∀ ord₂ : List Nat,
      resolve_batch t crash ord hostnames provider protocol record_type =
        resolve_batch t crash ord₂ hostnames provider protocol record_type ∧
      resolve_batch_raw t crash ord hostnames provider protocol type_code =
        resolve_batch_raw t crash ord₂ hostnames provider protocol type_code ∧
      resolve_batch_race t crash ord provOrder elapsed hostnames protocol record_type =
        resolve_batch_race t crash ord₂ provOrder elapsed hostnames protocol record_type ∧
      resolve_batch_race_raw t crash ord provOrder elapsed hostnames protocol type_code =
        resolve_batch_race_raw t crash ord₂ provOrder elapsed hostnames protocol type_code) := by
  refine ⟨⟨?_, ?_, ?_, ?_⟩, ?_, ?_⟩
  · exact spawnCollect_length _ _ _ _
  · exact spawnCollect_length _ _ _ _
  · exact spawnCollect_length _ _ _ _
  · exact spawnCollect_length _ _ _ _
  · intro i h hh
    exact ⟨spawnCollect_get? _ _ _ _ _ _ hh, spawnCollect_get? _ _ _ _ _ _ hh,
      spawnCollect_get? _ _ _ _ _ _ hh, spawnCollect_get? _ _ _ _ _ _ hh⟩
  · intro _
    exact ⟨rfl, rfl, rfl, rfl⟩

theorem batch_preserves_order_witness :
    (resolve_batch (constTransport ["93.184.216.34"] []) (fun _ => none) [0, 1]
        ["example.com", "example.org"] Provider.Cloudflare Protocol.Doh
        RecordType.A)[1]? = some (Except.ok ["93.184.216.34"]) :=
  ((batch_preserves_order (constTransport ["93.184.216.34"] []) (fun _ => none) [0, 1]
      (fun _ => Provider.all) (fun _ _ => 0) ["example.com", "example.org"]
      Provider.Cloudflare Protocol.Doh RecordType.A 65).2.1 1 "example.org" rfl).1

/-- Claim C9: in `resolve_batch`, a crash of the spawned task for one hostname
is converted into a failure result (`Task failed: …`, the source's
per-hostname query-failure conversion) at that hostname's position only, and a
unit's crash or transport failure never affects the result at any other
position: the j-th result depends only on the j-th unit's crash status and on
the transport's answer for the j-th hostname. -/
theorem batch_crash_isolated
    (t t₂ : Transport) (crash crash₂ : Nat → Option String) (ord ord₂ : List Nat)
    (hostnames : List String) (provider : Provider) (protocol : Protocol)
    (record_type : RecordType) :
    (∀ i h e, hostnames[i]? = some h → crash i = some e →
      (resolve_batch t crash ord hostnames provider protocol record_type)[i]? =
        some (Except.error ("Task failed: " ++ e))) ∧
    (∀ j h, hostnames[j]? = some h → crash j = crash₂ j →
      t.resolve provider protocol h record_type.to_type_code =
        t₂.resolve provider protocol h record_type.to_type_code →
      (resolve_batch t crash ord hostnames provider protocol record_type)[j]? =
        (resolve_batch t₂ crash₂ ord₂ hostnames provider protocol record_type)[j]?) := by
  constructor
  · intro i h e hh hc
    rw [resolve_batch, spawnCollect_get? _ _ _ _ _ _ hh, hc]
  · intro j h hh hc ht
    rw [resolve_batch, spawnCollect_get? _ _ _ _ _ _ hh,
      resolve_batch, spawnCollect_get? _ _ _ _ _ _ hh, hc, ht]

theorem batch_crash_isolated_witness :
    (resolve_batch (constTransport [] []) (fun i => if i = 0 then some "cancelled" else none)
        [] ["example.com", "example.org"] Provider.Google Protocol.Dot
        RecordType.AAAA)[0]? = some (Except.error "Task failed: cancelled") :=
  (batch_crash_isolated (constTransport [] []) (constTransport [] [])
      (fun i => if i = 0 then some "cancelled" else none)
      (fun i => if i = 0 then some "cancelled" else none) [] []
      ["example.com", "example.org"] Provider.Google Protocol.Dot
      RecordType.AAAA).1 0 "example.com" "cancelled" rfl rfl

theorem selectOk_exists_ok {α : Type} (att : Provider → Except String α) :
    ∀ (order : List Provider), (∃ p ∈ order, ∃ v, att p = Except.ok v) →
      ∃ w, selectOk att order = Except.ok w
  | [], h => by simp at h
  | [p], h => by
      obtain ⟨q, hq, v, hv⟩ := h
      simp at hq
      subst hq
      exact ⟨v, by simp [selectOk, hv]⟩
  | p :: q :: rest, h => by
      cases hp : att p with
      | ok w => exact ⟨w, by simp [selectOk, hp]⟩
      | error e =>
        have h' : ∃ r ∈ q :: rest, ∃ v, att r = Except.ok v := by
          obtain ⟨r, hr, v, hv⟩ := h
          rcases List.mem_cons.mp hr with rfl | hr2
          · rw [hp] at hv; exact absurd hv (by simp)
          · exact ⟨r, hr2, v, hv⟩
        obtain ⟨w, hw⟩ := selectOk_exists_ok att (q :: rest) h'
        exact ⟨w, by simp [selectOk, hp, hw]⟩

theorem selectOk_ok_mem {α : Type} (att : Provider → Except String α) :
    ∀ (order : List Provider) (w : α), selectOk att order = Except.ok w →
      ∃ p ∈ order, att p = Except.ok w
  | [], w, h => by simp [selectOk] at h
  | [p], w, h => by
      simp only [selectOk] at h
      exact ⟨p, by simp, h⟩
  | p :: q :: rest, w, h => by
      cases hp : att p with
      | ok v =>
        simp only [selectOk, hp] at h
        exact ⟨p, by simp, by rw [hp, h]⟩
      | error e =>
        simp only [selectOk, hp] at h
        obtain ⟨r, hr, hv⟩ := selectOk_ok_mem att (q :: rest) w h
        exact ⟨r, List.mem_cons_of_mem _ hr, hv⟩

theorem selectOk_all_error {α : Type} (att : Provider → Except String α) :
    ∀ (order : List Provider) (h : order ≠ []),
      (∀ p ∈ order, ∀ v, att p ≠ Except.ok v) →
      ∃ e, att (order.getLast h) = Except.error e ∧ selectOk att order = Except.error e
  | [], h, _ => absurd rfl h
  | [p], _, hfail => by
      cases hp : att p with
      | ok v => exact absurd hp (hfail p (by simp) v)
      | error e => exact ⟨e, by simpa using hp, by simp [selectOk, hp]⟩
  | p :: q :: rest, _, hfail => by
      cases hp : att p with
      | ok v => exact absurd hp (hfail p (by simp) v)
      | error e0 =>
        obtain ⟨e, he1, he2⟩ := selectOk_all_error att (q :: rest) (by simp)
          (fun r hr v hv => hfail r (List.mem_cons_of_mem _ hr) v hv)
        refine ⟨e, ?_, by simp [selectOk, hp, he2]⟩
        rw [List.getLast_cons (by simp)]
        exact he1

theorem exceptMap_eq_ok {ε α β : Type} (f : α → β) (x : Except ε α) (b : β) :
    x.map f = Except.ok b ↔ ∃ a, x = Except.ok a ∧ f a = b := by
  cases x <;> simp [Except.map]

theorem exceptMap_eq_error {ε α β : Type} (f : α → β) (x : Except ε α) (e : ε) :
    x.map f = Except.error e ↔ x = Except.error e := by
  cases x <;> simp [Except.map]

/-- Claim C3: `race_providers` (and therefore `resolve_race`) launches one
attempt per provider in `Provider.all` for the given hostname; whenever at
least one attempt succeeds, the result is some successful attempt's
`(records, provider, elapsed)` triple — never an all-providers-failed error —
and when every attempt fails, the result is the `All providers failed: …`
error carrying the description of the last-observed failure (the error of the
last attempt in completion order). -/
theorem race_providers_spec
    (t : Transport) (protocol : Protocol) (hostname : String) (type_code : Nat)
    (order : List Provider) (elapsed : Provider → Nat)
    (hperm : order.Perm Provider.all) :
    ((∃ p ∈ Provider.all, ∃ v, t.resolve p protocol hostname type_code = Except.ok v) →
      ∃ addresses p, p ∈ Provider.all ∧
        t.resolve p protocol hostname type_code = Except.ok addresses ∧
        race_providers t protocol hostname type_code order elapsed =
          Except.ok (addresses, p, elapsed p)) ∧
    ((∀ p ∈ Provider.all, ∀ v, t.resolve p protocol hostname type_code ≠ Except.ok v) →
      ∀ (h : order ≠ []), ∃ e,
        t.resolve (order.getLast h) protocol hostname type_code = Except.error e ∧
        race_providers t protocol hostname type_code order elapsed =
          Except.error ("All providers failed: " ++ e)) := by
  have hne : Provider.all.isEmpty = false := by decide
  constructor
  · intro hex
    obtain ⟨p, hp, v, hv⟩ := hex
    obtain ⟨w, hw⟩ :
        ∃ w, selectOk (raceAttempt t protocol hostname type_code elapsed) order =
          Except.ok w := by
      apply selectOk_exists_ok
      exact ⟨p, hperm.mem_iff.mpr hp, (v, p, elapsed p), by
        simp [raceAttempt, hv, Except.map]⟩
    obtain ⟨q, hq, hqa⟩ := selectOk_ok_mem _ order w hw
    obtain ⟨addresses, haddr, hweq⟩ := (exceptMap_eq_ok _ _ _).mp hqa
    refine ⟨addresses, q, hperm.mem_iff.mp hq, haddr, ?_⟩
    simp only [race_providers, hne, Bool.false_eq_true, if_false, hw, ← hweq]
  · intro hfail h
    have hfail' : ∀ p ∈ order, ∀ v,
        raceAttempt t protocol hostname type_code elapsed p ≠ Except.ok v := by
      intro p hp v hv
      obtain ⟨a, ha, _⟩ := (exceptMap_eq_ok _ _ _).mp hv
      exact hfail p (hperm.mem_iff.mp hp) a ha
    obtain ⟨e, he1, he2⟩ := selectOk_all_error _ order h hfail'
    refine ⟨e, (exceptMap_eq_error _ _ _).mp he1, ?_⟩
    simp only [race_providers, hne, Bool.false_eq_true, if_false, he2]

theorem race_providers_spec_witness :
    ∃ addresses p, p ∈ Provider.all ∧
      (constTransport ["1.1.1.1"] []).resolve p Protocol.Doh "example.com" 1 =
        Except.ok addresses ∧
      race_providers (constTransport ["1.1.1.1"] []) Protocol.Doh "example.com" 1
        Provider.all (fun _ => 7) = Except.ok (addresses, p, (fun _ => 7) p) :=
  (race_providers_spec (constTransport ["1.1.1.1"] []) Protocol.Doh "example.com" 1
      Provider.all (fun _ => 7) (List.Perm.refl _)).1
    ⟨Provider.Cloudflare, by decide, ["1.1.1.1"], rfl⟩

/-- Claim C8: for every supported record type `t`, converting `t` to its numeric
DNS code and reading that code back through `from_code` identifies the same
record type, so the composite `codeOf (fromCode (codeOf t))` equals `codeOf t`;
moreover the mapping is total and stable in both directions over the eight
supported types: `from_code` of a code names the unique type with that code,
and distinct types have distinct codes. -/
theorem recordType_code_roundtrip :
    (∀ t : RecordType, RecordType.ofName (RecordType.from_code t.to_type_code) = some t) ∧
    (∀ t : RecordType,
      (RecordType.ofName (RecordType.from_code t.to_type_code)).map
        RecordType.to_type_code = some t.to_type_code) ∧
    (∀ t : RecordType, RecordType.from_code t.to_type_code = t.displayName) ∧
    (∀ t₁ t₂ : RecordType, t₁.to_type_code = t₂.to_type_code → t₁ = t₂) := by
  refine ⟨?_, ?_, ?_, ?_⟩
  · intro t; cases t <;> rfl
  · intro t; cases t <;> rfl
  · intro t; cases t <;> rfl
  · intro t₁ t₂ h; cases t₁ <;> cases t₂ <;> simp_all [RecordType.to_type_code]

theorem recordType_code_roundtrip_witness :
    RecordType.ofName (RecordType.from_code RecordType.MX.to_type_code) = some RecordType.MX ∧
    RecordType.MX = RecordType.MX :=
  ⟨recordType_code_roundtrip.1 RecordType.MX,
   recordType_code_roundtrip.2.2.2 RecordType.MX RecordType.MX rfl⟩

/-- Modelled from the spec: the sequential provider chain of
`resolveWithFallback` (§4.1), which has no implementation under `src/`.
Providers are tried strictly sequentially in the given (already shuffled)
order; the first success returns its records together with the provider used;
when a provider fails and others remain, the chain moves on; when the last
attempted provider fails, its error is returned (not an aggregate). -/
def tryChain (res : Provider → Except String (List String)) :
    List Provider → Except String (List String × Provider)
  | [] => Except.error "No providers available"
  | [p] =>
      match res p with
      | Except.ok records => Except.ok (records, p)
      | Except.error e => Except.error e
  | p :: q :: rest =>
      match res p with
      | Except.ok records => Except.ok (records, p)
      | Except.error _ => tryChain res (q :: rest)

/-- Modelled from the spec: `resolveWithFallback(hostname, protocol,
recordType)` (§4.1), absent from `src/`. It obtains the full provider list and
randomly permutes it with a fresh uniform shuffle per call — modelled by the
`order` argument, which the theorems constrain to be a permutation of
`Provider.all` — then tries providers sequentially in that order via the
chain; `res p` is the transport's outcome for provider `p` on the call's
hostname, protocol and record type. -/
def resolveWithFallback (order : List Provider)
    (res : Provider → Except String (List String)) :
    Except String (List String × Provider) :=
  tryChain res order

/-- Modelled from the spec: the sequence of providers actually attempted by
the fallback chain of §4.1 — the tried order up to and including the first
success, or the whole order when every provider fails. -/
def attemptsOf (res : Provider → Except String (List String)) :
    List Provider → List Provider
  | [] => []
  | p :: rest =>
      match res p with
      | Except.ok _ => [p]
      | Except.error _ => p :: attemptsOf res rest

theorem attemptsOf_append (res : Provider → Except String (List String)) :
    ∀ order : List Provider, ∃ rest, order = attemptsOf res order ++ rest
  | [] => ⟨[], rfl⟩
  | p :: tail => by
      cases hp : res p with
      | ok records => exact ⟨tail, by simp [attemptsOf, hp]⟩
      | error e =>
        obtain ⟨rest, hrest⟩ := attemptsOf_append res tail
        exact ⟨rest, by simp [attemptsOf, hp]; exact hrest⟩

theorem tryChain_first_success (res : Provider → Except String (List String)) :
    ∀ (pre : List Provider) (p : Provider) (post : List Provider)
      (records : List String),
      (∀ q ∈ pre, ∀ v, res q ≠ Except.ok v) → res p = Except.ok records →
      tryChain res (pre ++ p :: post) = Except.ok (records, p)
  | [], p, post, records, _, hp => by
      cases post with
      | nil => simp [tryChain, hp]
      | cons q rest => simp [tryChain, hp]
  | a :: pre, p, post, records, hpre, hp => by
      cases ha : res a with
      | ok v => exact absurd ha (hpre a (by simp) v)
      | error e =>
        have htail := tryChain_first_success res pre p post records
          (fun q hq v hv => hpre q (List.mem_cons_of_mem _ hq) v hv) hp
        cases hpe : pre ++ p :: post with
        | nil => exact absurd hpe (by simp)
        | cons b tail =>
          rw [hpe] at htail
          simp only [List.cons_append, hpe, tryChain, ha]
          exact htail

theorem tryChain_ok_mem (res : Provider → Except String (List String)) :
    ∀ (order : List Provider) (records : List String) (p : Provider),
      tryChain res order = Except.ok (records, p) →
      p ∈ order ∧ res p = Except.ok records
  | [], records, p, h => by simp [tryChain] at h
  | [q], records, p, h => by
      cases hq : res q with
      | ok v =>
        simp only [tryChain, hq, Except.ok.injEq, Prod.mk.injEq] at h
        obtain ⟨rfl, rfl⟩ := h
        exact ⟨by simp, hq⟩
      | error e =>
        simp only [tryChain, hq] at h
        exact absurd h (by simp)
  | q :: r :: rest, records, p, h => by
      cases hq : res q with
      | ok v =>
        simp only [tryChain, hq, Except.ok.injEq, Prod.mk.injEq] at h
        obtain ⟨rfl, rfl⟩ := h
        exact ⟨by simp, hq⟩
      | error e =>
        simp only [tryChain, hq] at h
        obtain ⟨hmem, hres⟩ := tryChain_ok_mem res (r :: rest) records p h
        exact ⟨List.mem_cons_of_mem _ hmem, hres⟩

theorem tryChain_all_error (res : Provider → Except String (List String)) :
    ∀ (order : List Provider) (h : order ≠ []),
      (∀ p ∈ order, ∀ v, res p ≠ Except.ok v) →
      ∃ e, res (order.getLast h) = Except.error e ∧ tryChain res order = Except.error e
  | [], h, _ => absurd rfl h
  | [p], _, hfail => by
      cases hp : res p with
      | ok v => exact absurd hp (hfail p (by simp) v)
      | error e => exact ⟨e, by simpa using hp, by simp [tryChain, hp]⟩
  | p :: q :: rest, _, hfail => by
      cases hp : res p with
      | ok v => exact absurd hp (hfail p (by simp) v)
      | error e0 =>
        obtain ⟨e, he1, he2⟩ := tryChain_all_error res (q :: rest) (by simp)
          (fun r hr v hv => hfail r (List.mem_cons_of_mem _ hr) v hv)
        refine ⟨e, ?_, by simp [tryChain, hp, he2]⟩
        rw [List.getLast_cons (by simp)]
        exact he1

theorem attemptsOf_all_error (res : Provider → Except String (List String)) :
    ∀ order : List Provider,
      (∀ p ∈ order, ∀ v, res p ≠ Except.ok v) → attemptsOf res order = order
  | [], _ => rfl
  | p :: rest, hfail => by
      cases hp : res p with
      | ok v => exact absurd hp (hfail p (by simp) v)
      | error e =>
        have := attemptsOf_all_error res rest
          (fun r hr v hv => hfail r (List.mem_cons_of_mem _ hr) v hv)
        simp [attemptsOf, hp, this]

/-- Claim C2: `resolveWithFallback` obtains the full provider list and
permutes it (the `order` argument ranges over all permutations of
`Provider.all`, modelling the per-call uniform shuffle), tries providers
strictly sequentially in that order trying each at most once, returns on the
first success with the records and the provider used, and when all providers
fail it makes exactly `|Provider.all|` attempts and returns the error of the
last attempted provider, not an aggregate. -/
theorem resolveWithFallback_spec (order : List Provider)
    (res : Provider → Except String (List String)) (hperm : order.Perm Provider.all) :
    (attemptsOf res order).Nodup ∧
    (∃ rest, order = attemptsOf res order ++ rest) ∧
    (∀ pre p post records, order = pre ++ p :: post →
      (∀ q ∈ pre, ∀ v, res q ≠ Except.ok v) → res p = Except.ok records →
      resolveWithFallback order res = Except.ok (records, p)) ∧
    (∀ records p, resolveWithFallback order res = Except.ok (records, p) →
      p ∈ Provider.all ∧ res p = Except.ok records) ∧
    ((∀ p ∈ Provider.all, ∀ v, res p ≠ Except.ok v) →
      attemptsOf res order = order ∧
      (attemptsOf res order).length = Provider.all.length ∧
      ∀ (h : order ≠ []), ∃ e, res (order.getLast h) = Except.error e ∧
        resolveWithFallback order res = Except.error e) := by
  have hnodup : order.Nodup := hperm.nodup_iff.mpr (by decide)
  obtain ⟨rest, hrest⟩ := attemptsOf_append res order
  refine ⟨?_, ⟨rest, hrest⟩, ?_, ?_, ?_⟩
  · have hsub : List.Sublist (attemptsOf res order) order := by
      conv_rhs => rw [hrest]
      exact List.sublist_append_left _ _
    exact hnodup.sublist hsub
  · intro pre p post records horder hpre hp
    rw [resolveWithFallback, horder]
    exact tryChain_first_success res pre p post records hpre hp
  · intro records p h
    obtain ⟨hmem, hres⟩ := tryChain_ok_mem res order records p h
    exact ⟨hperm.mem_iff.mp hmem, hres⟩
  · intro hfail
    have hfail' : ∀ p ∈ order, ∀ v, res p ≠ Except.ok v :=
      fun p hp v hv => hfail p (hperm.mem_iff.mp hp) v hv
    have hatt := attemptsOf_all_error res order hfail'
    refine ⟨hatt, by rw [hatt, hperm.length_eq], ?_⟩
    intro h
    obtain ⟨e, he1, he2⟩ := tryChain_all_error res order h hfail'
    exact ⟨e, he1, he2⟩

theorem resolveWithFallback_spec_witness :
    attemptsOf (fun _ => Except.error "connection refused") Provider.all = Provider.all ∧
    (∃ e, (fun _ : Provider =>
        (Except.error "connection refused" : Except String (List String)))
          (Provider.all.getLast (by decide)) = Except.error e ∧
      resolveWithFallback Provider.all (fun _ => Except.error "connection refused") =
        Except.error e) :=
  have h := (resolveWithFallback_spec Provider.all
      (fun _ => Except.error "connection refused") (List.Perm.refl _)).2.2.2.2
    (by simp)
  ⟨h.1, h.2.2 (by decide)⟩

end SecureDns

namespace SecureDns

@[simp] theorem ok_bind {ε α β : Type} (a : α) (f : α → Except ε β) :
    (Except.ok a >>= f) = f a := rfl

@[simp] theorem error_bind {ε α β : Type} (e : ε) (f : α → Except ε β) :
    (Except.error e >>= f : Except ε β) = Except.error e := rfl

@[simp] theorem pure_eq_ok {ε α : Type} (a : α) : (pure a : Except ε α) = Except.ok a := rfl

end SecureDns

namespace SecureDns

/-- Alphabet of the standard base64 engine used by `ech.rs`
(`base64::engine::general_purpose::STANDARD`). -/
def b64Alphabet : List Char :=
  "ABCDEFGHIJKLMNOPQRSTUVWXYZabcdefghijklmnopqrstuvwxyz0123456789+/".toList

/-- Character encoding a 6-bit group. -/
def b64Char (n : Nat) : Char := b64Alphabet.getD n 'A'

/-- Standard base64 encoding with padding (`STANDARD.encode` in `ech.rs`),
over bytes represented as naturals below 256. -/
def base64Encode : List Nat → List Char
  | [] => []
  | [a] => [b64Char (a / 4), b64Char (a % 4 * 16), '=', '=']
  | [a, b] => [b64Char (a / 4), b64Char (a % 4 * 16 + b / 16), b64Char (b % 16 * 4), '=']
  | a :: b :: c :: rest =>
      b64Char (a / 4) :: b64Char (a % 4 * 16 + b / 16) ::
      b64Char (b % 16 * 4 + c / 64) :: b64Char (c % 64) :: base64Encode rest

/-- Index of a character in the base64 alphabet. -/
def b64Val (ch : Char) : Option Nat := b64Alphabet.findIdx? (fun c => c = ch)

/-- Standard base64 decoding with padding, the inverse used to state that an
entry's base64 text decodes back to specific bytes. -/
def base64Decode : List Char → Option (List Nat)
  | [] => some []
  | c1 :: c2 :: c3 :: c4 :: rest =>
      if c3 = '=' ∧ c4 = '=' ∧ rest = [] then do
        let v1 ← b64Val c1
        let v2 ← b64Val c2
        some [v1 * 4 + v2 / 16]
      else if c4 = '=' ∧ rest = [] then do
        let v1 ← b64Val c1
        let v2 ← b64Val c2
        let v3 ← b64Val c3
        some [v1 * 4 + v2 / 16, v2 % 16 * 16 + v3 / 4]
      else do
        let v1 ← b64Val c1
        let v2 ← b64Val c2
        let v3 ← b64Val c3
        let v4 ← b64Val c4
        let tail ← base64Decode rest
        some ((v1 * 4 + v2 / 16) :: (v2 % 16 * 16 + v3 / 4) :: (v3 % 4 * 64 + v4) :: tail)
  | _ => none

/-- One entry string produced by the ECH parser. The source emits formatted
strings with three distinguishable shapes; the embedding keeps the shape and
the data interpolated into it: `raw` for `Raw ECH Config (base64): …`,
`rich` for `ECH Config v…: ConfigID=…, KEM=…, PublicName="…", Base64: …`
(the public name kept as the raw bytes that `from_utf8_lossy` renders), and
`plain` for `ECH Config v…: Base64: …`. -/
inductive EchEntry where
  | raw (b64 : List Char)
  | rich (version : Nat) (config_id : Nat) (kem_id : Nat)
      (public_name : List Nat) (b64 : List Char)
  | plain (version : Nat) (b64 : List Char)
deriving DecidableEq, Repr

/-- Parsed ECH configuration info (`ech.rs`, struct `EchConfigContents`). -/
structure EchConfigContents where
  config_id : Nat
  kem_id : Nat
  public_name : List Nat
deriving DecidableEq, Repr

/-- Rust slice indexing `data[i]`: the byte when in bounds, a panic —
modelled as `Except.error ()` — when out of bounds. -/
def byteAt (data : List Nat) (i : Nat) : Except Unit Nat :=
  match data[i]? with
  | some b => Except.ok b
  | none => Except.error ()

/-- Rust range slicing `&data[a..b]`: the sub-slice when `a ≤ b ≤ len`,
a panic otherwise. -/
def slice (data : List Nat) (a b : Nat) : Except Unit (List Nat) :=
  if a ≤ b ∧ b ≤ data.length then Except.ok ((data.drop a).take (b - a))
  else Except.error ()

/-- Skip the target-name field of the SVCB record (`ech.rs`,
`extract_ech_from_svcb`): length-prefixed labels until a zero label; if the
terminator never appears the walk stops at end of buffer. Returns the
position after the name. -/
def skipTargetName (data : List Nat) (pos : Nat) : Except Unit Nat :=
  if h : pos < data.length then
    byteAt data pos >>= fun label_len =>
    if label_len = 0 then Except.ok (pos + 1)
    else skipTargetName data (pos + 1 + label_len)
  else Except.ok pos
termination_by data.length - pos
decreasing_by omega

/-- Parse ECHConfigContents for detailed info (`ech.rs`,
`parse_ech_config_contents`): only draft versions 0xfe0d/0xfe0e; sequential
bounds-checked reads of config id, KEM id, skipped public key, skipped cipher
suites, skipped maximum name length, then the public name; any overrun aborts
with `none` for this config only. -/
def parse_ech_config_contents (version : Nat) (data : List Nat) :
    Except Unit (Option EchConfigContents) :=
  if version ≠ 0xfe0d ∧ version ≠ 0xfe0e then Except.ok none
  else if data.length < 10 then Except.ok none
  else
    byteAt data 0 >>= fun config_id =>
    byteAt data 1 >>= fun k1 =>
    byteAt data 2 >>= fun k2 =>
    byteAt data 3 >>= fun p1 =>
    byteAt data 4 >>= fun p2 =>
    let kem_id := k1 * 256 + k2
    let pk_len := p1 * 256 + p2
    if 5 + pk_len > data.length then Except.ok none
    else if 5 + pk_len + 2 > data.length then Except.ok none
    else
      byteAt data (5 + pk_len) >>= fun c1 =>
      byteAt data (5 + pk_len + 1) >>= fun c2 =>
      let cs_len := c1 * 256 + c2
      if 7 + pk_len + cs_len > data.length then Except.ok none
      else if 7 + pk_len + cs_len ≥ data.length then Except.ok none
      else if 8 + pk_len + cs_len ≥ data.length then Except.ok none
      else
        byteAt data (8 + pk_len + cs_len) >>= fun name_len =>
        if 9 + pk_len + cs_len + name_len > data.length then Except.ok none
        else
          slice data (9 + pk_len + cs_len) (9 + pk_len + cs_len + name_len) >>=
            fun public_name =>
          Except.ok (some ⟨config_id, kem_id, public_name⟩)

/-- The ECHConfig iteration of `parse_ech_config_list` (`ech.rs`): while at
least four bytes remain and the position is inside the declared list, read a
config's version and length, stop on underrun, base64-encode the whole config
and attempt contents parsing for a rich entry, falling back to a plain one. -/
def echConfigLoop (data : List Nat) (list_len : Nat) (pos : Nat)
    (configs : List EchEntry) : Except Unit (List EchEntry) :=
  if h : pos + 4 ≤ data.length ∧ pos < 2 + list_len then
    byteAt data pos >>= fun v1 =>
    byteAt data (pos + 1) >>= fun v2 =>
    byteAt data (pos + 2) >>= fun l1 =>
    byteAt data (pos + 3) >>= fun l2 =>
    let version := v1 * 256 + v2
    let config_len := l1 * 256 + l2
    if pos + 4 + config_len > data.length then Except.ok configs
    else
      slice data pos (pos + 4 + config_len) >>= fun config_data =>
      slice data (pos + 4) (pos + 4 + config_len) >>= fun contents =>
      parse_ech_config_contents version contents >>= fun info =>
      let entry :=
        match info with
        | some i =>
            EchEntry.rich version i.config_id i.kem_id i.public_name
              (base64Encode config_data)
        | none => EchEntry.plain version (base64Encode config_data)
      echConfigLoop data list_len (pos + 4 + config_len) (configs ++ [entry])
  else
    Except.ok configs
termination_by data.length - pos
decreasing_by omega

/-- Parse ECHConfigList structure (`ech.rs`, `parse_ech_config_list`). -/
def parse_ech_config_list (data : List Nat) : Except Unit (Option (List EchEntry)) :=
  if data.length < 2 then Except.ok none
  else
    byteAt data 0 >>= fun b0 =>
    byteAt data 1 >>= fun b1 =>
    let list_len := b0 * 256 + b1
    if data.length < 2 + list_len then
      Except.ok (some [EchEntry.raw (base64Encode data)])
    else
      echConfigLoop data list_len 2 [] >>= fun configs =>
      if configs.isEmpty then
        Except.ok (some [EchEntry.raw (base64Encode data)])
      else
        Except.ok (some configs)

/-- The SvcParam iteration of `extract_ech_from_svcb` (`ech.rs`): while at
least four bytes remain, read a 2-byte key and 2-byte length, stop when the
declared value overruns the buffer, and accumulate the entries parsed from
every key-5 (ECH) parameter's value. -/
def svcParamLoop (data : List Nat) (pos : Nat) (ech_configs : List EchEntry) :
    Except Unit (List EchEntry) :=
  if h : pos + 4 ≤ data.length then
    byteAt data pos >>= fun k1 =>
    byteAt data (pos + 1) >>= fun k2 =>
    byteAt data (pos + 2) >>= fun l1 =>
    byteAt data (pos + 3) >>= fun l2 =>
    let param_key := k1 * 256 + k2
    let param_len := l1 * 256 + l2
    if pos + 4 + param_len > data.length then Except.ok ech_configs
    else if param_key = 5 then
      slice data (pos + 4) (pos + 4 + param_len) >>= fun ech_data =>
      parse_ech_config_list ech_data >>= fun config_info =>
      match config_info with
      | some entries => svcParamLoop data (pos + 4 + param_len) (ech_configs ++ entries)
      | none => svcParamLoop data (pos + 4 + param_len) ech_configs
    else
      svcParamLoop data (pos + 4 + param_len) ech_configs
  else
    Except.ok ech_configs
termination_by data.length - pos
decreasing_by all_goals omega

/-- Extract ECH config from SVCB/HTTPS record wire format (`ech.rs`,
`extract_ech_from_svcb`): require three bytes, skip the 2-byte priority and
the target name, iterate the SvcParams, and return `none` when no entries
were accumulated. -/
def extract_ech_from_svcb (data : List Nat) : Except Unit (Option (List EchEntry)) :=
  if data.length < 3 then Except.ok none
  else
    skipTargetName data 2 >>= fun pos =>
    svcParamLoop data pos [] >>= fun ech_configs =>
    if ech_configs.isEmpty then Except.ok none
    else Except.ok (some ech_configs)

/-- Parse ECH config from raw DNS response data (`ech.rs`,
`parse_ech_config`): extract via the SVCB walk, propagate `none`, and drop an
empty accumulation to `none`. -/
def parse_ech_config (raw_data : List Nat) : Except Unit (Option (List EchEntry)) :=
  extract_ech_from_svcb raw_data >>= fun extracted =>
  match extracted with
  | none => Except.ok none
  | some ech_configs =>
    if ech_configs.isEmpty then Except.ok none
    else Except.ok (some ech_configs)

theorem byteAt_ok (data : List Nat) (i : Nat) (h : i < data.length) :
    ∃ b, byteAt data i = Except.ok b := by
  cases hq : data[i]? with
  | none => rw [List.getElem?_eq_none_iff] at hq; omega
  | some b => exact ⟨b, by simp [byteAt, hq]⟩

theorem byteAt_eq (data : List Nat) (i : Nat) (b : Nat) (h : data[i]? = some b) :
    byteAt data i = Except.ok b := by
  simp [byteAt, h]

theorem slice_ok (data : List Nat) (a b : Nat) (h1 : a ≤ b) (h2 : b ≤ data.length) :
    slice data a b = Except.ok ((data.drop a).take (b - a)) := by
  simp [slice, h1, h2]

theorem skipTargetName_ok (data : List Nat) (pos : Nat) :
    ∃ r, skipTargetName data pos = Except.ok r := by
  rw [skipTargetName]
  split
  case isTrue h =>
    obtain ⟨b, hb⟩ := byteAt_ok data pos h
    rw [hb]
    simp only [ok_bind]
    split
    · exact ⟨pos + 1, rfl⟩
    · exact skipTargetName_ok data (pos + 1 + b)
  case isFalse h => exact ⟨pos, rfl⟩
termination_by data.length - pos
decreasing_by omega

theorem contents_ok (version : Nat) (data : List Nat) :
    ∃ r, parse_ech_config_contents version data = Except.ok r := by
  unfold parse_ech_config_contents
  split
  · exact ⟨none, rfl⟩
  split
  · exact ⟨none, rfl⟩
  rename_i hlen
  obtain ⟨b0, hb0⟩ := byteAt_ok data 0 (by omega)
  obtain ⟨b1, hb1⟩ := byteAt_ok data 1 (by omega)
  obtain ⟨b2, hb2⟩ := byteAt_ok data 2 (by omega)
  obtain ⟨b3, hb3⟩ := byteAt_ok data 3 (by omega)
  obtain ⟨b4, hb4⟩ := byteAt_ok data 4 (by omega)
  rw [hb0, hb1, hb2, hb3, hb4]
  simp only [ok_bind]
  split
  · exact ⟨none, rfl⟩
  split
  · exact ⟨none, rfl⟩
  rename_i hpk1 hpk2
  obtain ⟨c1, hc1⟩ := byteAt_ok data (5 + (b3 * 256 + b4)) (by omega)
  obtain ⟨c2, hc2⟩ := byteAt_ok data (5 + (b3 * 256 + b4) + 1) (by omega)
  rw [hc1, hc2]
  simp only [ok_bind]
  split
  · exact ⟨none, rfl⟩
  split
  · exact ⟨none, rfl⟩
  split
  · exact ⟨none, rfl⟩
  rename_i hcs1 hcs2 hcs3
  obtain ⟨nl, hnl⟩ := byteAt_ok data (8 + (b3 * 256 + b4) + (c1 * 256 + c2)) (by omega)
  rw [hnl]
  simp only [ok_bind]
  split
  · exact ⟨none, rfl⟩
  rename_i hname
  rw [slice_ok data _ _ (by omega) (by omega)]
  simp only [ok_bind]
  exact ⟨_, rfl⟩

theorem echConfigLoop_ok (data : List Nat) (list_len pos : Nat) (configs : List EchEntry) :
    ∃ r, echConfigLoop data list_len pos configs = Except.ok r := by
  rw [echConfigLoop]
  split
  case isTrue h =>
    obtain ⟨v1, h1⟩ := byteAt_ok data pos (by omega)
    obtain ⟨v2, h2⟩ := byteAt_ok data (pos + 1) (by omega)
    obtain ⟨l1, h3⟩ := byteAt_ok data (pos + 2) (by omega)
    obtain ⟨l2, h4⟩ := byteAt_ok data (pos + 3) (by omega)
    rw [h1, h2, h3, h4]
    simp only [ok_bind]
    split
    · exact ⟨configs, rfl⟩
    rename_i hc
    rw [slice_ok data pos _ (by omega) (by omega),
      slice_ok data (pos + 4) _ (by omega) (by omega)]
    simp only [ok_bind]
    obtain ⟨info, hinfo⟩ := contents_ok (v1 * 256 + v2) _
    rw [hinfo]
    simp only [ok_bind]
    exact echConfigLoop_ok data list_len (pos + 4 + (l1 * 256 + l2)) _
  case isFalse h => exact ⟨configs, rfl⟩
termination_by data.length - pos
decreasing_by omega

theorem plist_ok (data : List Nat) :
    ∃ r, parse_ech_config_list data = Except.ok r := by
  unfold parse_ech_config_list
  split
  · exact ⟨none, rfl⟩
  rename_i hlen
  obtain ⟨b0, hb0⟩ := byteAt_ok data 0 (by omega)
  obtain ⟨b1, hb1⟩ := byteAt_ok data 1 (by omega)
  rw [hb0, hb1]
  simp only [ok_bind]
  split
  · exact ⟨_, rfl⟩
  obtain ⟨configs, hloop⟩ := echConfigLoop_ok data (b0 * 256 + b1) 2 []
  rw [hloop]
  simp only [ok_bind]
  split
  · exact ⟨_, rfl⟩
  · exact ⟨_, rfl⟩

theorem svcParamLoop_ok (data : List Nat) (pos : Nat) (acc : List EchEntry) :
    ∃ r, svcParamLoop data pos acc = Except.ok r := by
  rw [svcParamLoop]
  split
  case isTrue h =>
    obtain ⟨k1, h1⟩ := byteAt_ok data pos (by omega)
    obtain ⟨k2, h2⟩ := byteAt_ok data (pos + 1) (by omega)
    obtain ⟨l1, h3⟩ := byteAt_ok data (pos + 2) (by omega)
    obtain ⟨l2, h4⟩ := byteAt_ok data (pos + 3) (by omega)
    rw [h1, h2, h3, h4]
    simp only [ok_bind]
    split
    · exact ⟨acc, rfl⟩
    rename_i hovr
    split
    case isTrue hkey =>
      rw [slice_ok data (pos + 4) _ (by omega) (by omega)]
      simp only [ok_bind]
      obtain ⟨info, hinfo⟩ := plist_ok _
      rw [hinfo]
      simp only [ok_bind]
      cases info with
      | none => exact svcParamLoop_ok data (pos + 4 + (l1 * 256 + l2)) acc
      | some entries => exact svcParamLoop_ok data (pos + 4 + (l1 * 256 + l2)) (acc ++ entries)
    case isFalse hkey => exact svcParamLoop_ok data (pos + 4 + (l1 * 256 + l2)) acc
  case isFalse h => exact ⟨acc, rfl⟩
termination_by data.length - pos
decreasing_by all_goals omega

theorem extract_ok (data : List Nat) :
    ∃ r, extract_ech_from_svcb data = Except.ok r := by
  unfold extract_ech_from_svcb
  split
  · exact ⟨none, rfl⟩
  obtain ⟨pos, hpos⟩ := skipTargetName_ok data 2
  rw [hpos]
  simp only [ok_bind]
  obtain ⟨entries, hloop⟩ := svcParamLoop_ok data pos []
  rw [hloop]
  simp only [ok_bind]
  split
  · exact ⟨none, rfl⟩
  · exact ⟨_, rfl⟩

theorem parse_ok (data : List Nat) :
    ∃ r, parse_ech_config data = Except.ok r := by
  unfold parse_ech_config
  obtain ⟨r, hr⟩ := extract_ok data
  rw [hr]
  simp only [ok_bind]
  cases r with
  | none => exact ⟨none, rfl⟩
  | some entries =>
    simp only []
    split
    · exact ⟨none, rfl⟩
    · exact ⟨_, rfl⟩

theorem byteAt_getD (data : List Nat) (i : Nat) (h : i < data.length) :
    byteAt data i = Except.ok (data[i]?.getD 0) := by
  cases hq : data[i]? with
  | none => rw [List.getElem?_eq_none_iff] at hq; omega
  | some b => simp [byteAt, hq]

/-- The sequence of `(key, value)` SvcParam records visited by the SvcParam
iteration of `extract_ech_from_svcb` starting at `pos`: a specification-side
reading of the same wire walk, used to state which parameters a record
contains. -/
def svcParams (data : List Nat) (pos : Nat) : List (Nat × List Nat) :=
  if h : pos + 4 ≤ data.length then
    let param_key := data[pos]?.getD 0 * 256 + data[pos + 1]?.getD 0
    let param_len := data[pos + 2]?.getD 0 * 256 + data[pos + 3]?.getD 0
    if pos + 4 + param_len > data.length then []
    else (param_key, (data.drop (pos + 4)).take param_len) ::
      svcParams data (pos + 4 + param_len)
  else []
termination_by data.length - pos
decreasing_by omega

/-- The entries the ECHConfigList parser contributes for one parameter value:
the parsed list when it returns `some`, nothing otherwise. -/
def plistEntries (v : List Nat) : List EchEntry :=
  match parse_ech_config_list v with
  | Except.ok (some entries) => entries
  | _ => []

/-- Entries accumulated over a sequence of SvcParam records: every key-5
parameter contributes its parsed ECHConfigList entries. -/
def echEntriesOfParams : List (Nat × List Nat) → List EchEntry
  | [] => []
  | kv :: rest =>
      (if kv.1 = 5 then plistEntries kv.2 else []) ++ echEntriesOfParams rest

theorem svcParamLoop_eq (data : List Nat) (pos : Nat) (acc : List EchEntry) :
    svcParamLoop data pos acc =
      Except.ok (acc ++ echEntriesOfParams (svcParams data pos)) := by
  rw [svcParamLoop, svcParams]
  split
  case isTrue h =>
    rw [byteAt_getD data pos (by omega), byteAt_getD data (pos + 1) (by omega),
      byteAt_getD data (pos + 2) (by omega), byteAt_getD data (pos + 3) (by omega)]
    simp only [ok_bind]
    split
    case isTrue hovr => simp [echEntriesOfParams]
    case isFalse hovr =>
      split
      case isTrue hkey =>
        rw [slice_ok data (pos + 4) _ (by omega) (by omega)]
        simp only [ok_bind]
        have harg : pos + 4 + (data[pos + 2]?.getD 0 * 256 + data[pos + 3]?.getD 0) -
            (pos + 4) = data[pos + 2]?.getD 0 * 256 + data[pos + 3]?.getD 0 := by omega
        rw [harg]
        cases hp : parse_ech_config_list
            ((data.drop (pos + 4)).take
              (data[pos + 2]?.getD 0 * 256 + data[pos + 3]?.getD 0)) with
        | error e =>
          obtain ⟨r, hr⟩ := plist_ok
            ((data.drop (pos + 4)).take
              (data[pos + 2]?.getD 0 * 256 + data[pos + 3]?.getD 0))
          rw [hp] at hr
          exact absurd hr (by simp)
        | ok info =>
          simp only [ok_bind]
          cases info with
          | some entries =>
            show svcParamLoop data
              (pos + 4 + (data[pos + 2]?.getD 0 * 256 + data[pos + 3]?.getD 0))
              (acc ++ entries) = _
            rw [svcParamLoop_eq data
              (pos + 4 + (data[pos + 2]?.getD 0 * 256 + data[pos + 3]?.getD 0))
              (acc ++ entries)]
            simp [echEntriesOfParams, plistEntries, hp, hkey, List.append_assoc]
          | none =>
            show svcParamLoop data
              (pos + 4 + (data[pos + 2]?.getD 0 * 256 + data[pos + 3]?.getD 0))
              acc = _
            rw [svcParamLoop_eq data
              (pos + 4 + (data[pos + 2]?.getD 0 * 256 + data[pos + 3]?.getD 0))
              acc]
            simp [echEntriesOfParams, plistEntries, hp, hkey]
      case isFalse hkey =>
        rw [svcParamLoop_eq data (pos + 4 + _) acc]
        simp [echEntriesOfParams, hkey]
  case isFalse h => simp [echEntriesOfParams]
termination_by data.length - pos
decreasing_by all_goals omega

theorem echEntriesOfParams_eq_nil (params : List (Nat × List Nat))
    (h : ∀ kv ∈ params, kv.1 = 5 → plistEntries kv.2 = []) :
    echEntriesOfParams params = [] := by
  induction params with
  | nil => rfl
  | cons kv rest ih =>
    rw [echEntriesOfParams]
    rw [ih (fun x hx h5 => h x (List.mem_cons_of_mem _ hx) h5)]
    by_cases h5 : kv.1 = 5
    · simp [h5, h kv (by simp) h5]
    · simp [h5]

/-- Claim C5: `parse_ech_config` returns `none` both when the record's
SvcParam walk meets no parameter of key 5 at all, and when every key-5
parameter it meets is one whose value yields no decoded configuration entries
(the found-but-empty case, which for this parser means the ECHConfigList
parser returned `none` on the value). -/
theorem parse_ech_config_none_cases (data : List Nat) (pos : Nat)
    (hskip : skipTargetName data 2 = Except.ok pos) :
    ((∀ kv ∈ svcParams data pos, kv.1 ≠ 5) →
      parse_ech_config data = Except.ok none) ∧
    ((∀ kv ∈ svcParams data pos, kv.1 = 5 →
        parse_ech_config_list kv.2 = Except.ok none) →
      parse_ech_config data = Except.ok none) := by
  have hmain : ∀ (hyp : ∀ kv ∈ svcParams data pos, kv.1 = 5 → plistEntries kv.2 = []),
      parse_ech_config data = Except.ok none := by
    intro hyp
    have hext : extract_ech_from_svcb data = Except.ok none := by
      unfold extract_ech_from_svcb
      by_cases hlen : data.length < 3
      · simp [hlen]
      · simp only [hlen, if_false]
        rw [hskip]
        simp only [ok_bind]
        rw [svcParamLoop_eq data pos [], echEntriesOfParams_eq_nil _ hyp]
        simp
    unfold parse_ech_config
    rw [hext]
    simp only [ok_bind]
  constructor
  · intro h5
    exact hmain (fun kv hkv h5kv => absurd h5kv (h5 kv hkv))
  · intro hnone
    exact hmain (fun kv hkv h5kv => by simp [plistEntries, hnone kv hkv h5kv])

@[simp] theorem option_some_bind {α β : Type} (a : α) (f : α → Option β) :
    (some a >>= f : Option β) = f a := rfl

theorem b64Val_b64Char : ∀ n < 64, b64Val (b64Char n) = some n := by decide

theorem b64Char_ne_pad : ∀ n < 64, b64Char n ≠ '=' := by decide

theorem base64_roundtrip (bytes : List Nat) (h : ∀ b ∈ bytes, b < 256) :
    base64Decode (base64Encode bytes) = some bytes := by
  induction bytes using base64Encode.induct with
  | case1 => rfl
  | case2 a =>
    have ha : a < 256 := h a (by simp)
    have h1 : a / 4 < 64 := by omega
    have h2 : a % 4 * 16 < 64 := by omega
    rw [base64Encode]
    simp only [base64Decode]
    rw [if_pos (by simp), b64Val_b64Char _ h1, b64Val_b64Char _ h2]
    simp only [option_some_bind, Option.some.injEq, List.cons.injEq, and_true]
    omega
  | case3 a b =>
    have ha : a < 256 := h a (by simp)
    have hb : b < 256 := h b (by simp)
    have h1 : a / 4 < 64 := by omega
    have h2 : a % 4 * 16 + b / 16 < 64 := by omega
    have h3 : b % 16 * 4 < 64 := by omega
    rw [base64Encode]
    simp only [base64Decode]
    rw [if_neg (fun hc => b64Char_ne_pad _ h3 hc.1), if_pos (by simp),
      b64Val_b64Char _ h1, b64Val_b64Char _ h2, b64Val_b64Char _ h3]
    simp only [option_some_bind, Option.some.injEq, List.cons.injEq, and_true]
    constructor
    · omega
    · omega
  | case4 a b c rest ih =>
    have ha : a < 256 := h a (by simp)
    have hb : b < 256 := h b (by simp)
    have hc : c < 256 := h c (by simp)
    have hrest : ∀ x ∈ rest, x < 256 := fun x hx => h x (by simp [hx])
    have h1 : a / 4 < 64 := by omega
    have h2 : a % 4 * 16 + b / 16 < 64 := by omega
    have h3 : b % 16 * 4 + c / 64 < 64 := by omega
    have h4 : c % 64 < 64 := by omega
    rw [base64Encode]
    simp only [base64Decode]
    rw [if_neg (fun hp => b64Char_ne_pad _ h3 hp.1),
      if_neg (fun hp => b64Char_ne_pad _ h4 hp.1),
      b64Val_b64Char _ h1, b64Val_b64Char _ h2, b64Val_b64Char _ h3,
      b64Val_b64Char _ h4, ih hrest]
    simp only [option_some_bind, Option.some.injEq, List.cons.injEq, and_true]
    refine ⟨by omega, by omega, by omega⟩

/-- Big-endian 2-byte encoding of a 16-bit value. -/
def u16be (n : Nat) : List Nat := [n / 256, n % 256]

/-- SVCB/HTTPS record with zero priority, a root target name, and a single
key-5 SvcParam carrying `value`: the record shape of the spec's §8 example. -/
def mkSvcbEch (value : List Nat) : List Nat :=
  [0, 0, 0, 0, 5] ++ u16be value.length ++ value

theorem mkSvcbEch_length (value : List Nat) :
    (mkSvcbEch value).length = 7 + value.length := by
  simp [mkSvcbEch, u16be]
  omega

theorem skipTargetName_mkSvcb (value : List Nat) :
    skipTargetName (mkSvcbEch value) 2 = Except.ok 3 := by
  rw [skipTargetName,
    dif_pos (show 2 < (mkSvcbEch value).length by rw [mkSvcbEch_length]; omega),
    byteAt_eq _ 2 0 rfl]
  simp

theorem svcParams_mkSvcb (value : List Nat) (hlen : value.length < 65536) :
    svcParams (mkSvcbEch value) 3 = [(5, value)] := by
  have hX : (mkSvcbEch value)[3 + 2]?.getD 0 * 256 + (mkSvcbEch value)[3 + 3]?.getD 0
      = value.length := by
    have h5 : (mkSvcbEch value)[3 + 2]? = some (value.length / 256) := rfl
    have h6 : (mkSvcbEch value)[3 + 3]? = some (value.length % 256) := by
      simp [mkSvcbEch, u16be]
    rw [h5, h6]
    simp only [Option.getD_some]
    omega
  have hKey : (mkSvcbEch value)[3]?.getD 0 * 256 + (mkSvcbEch value)[3 + 1]?.getD 0 = 5 :=
    rfl
  have hdrop : (mkSvcbEch value).drop (3 + 4) = value := rfl
  rw [svcParams, dif_pos (show 3 + 4 ≤ (mkSvcbEch value).length by
    rw [mkSvcbEch_length]; omega)]
  simp only [hKey, hX, hdrop]
  rw [if_neg (show ¬ 3 + 4 + value.length > (mkSvcbEch value).length by
    rw [mkSvcbEch_length]; omega)]
  rw [List.take_length]
  rw [svcParams, dif_neg (show ¬ 3 + 4 + value.length + 4 ≤ (mkSvcbEch value).length by
    rw [mkSvcbEch_length]; omega)]

/-- Claim C7: when the 2-byte declared ECHConfigList length of a key-5
SvcParam value exceeds the bytes actually available in that value,
`parse_ech_config` yields exactly one fallback raw entry whose base64 payload
decodes to the entire param value. -/
theorem parse_truncated_echlist_raw (value : List Nat)
    (h2 : 2 ≤ value.length) (hlen : value.length < 65536)
    (hdecl : value.length < 2 + (value[0]?.getD 0 * 256 + value[1]?.getD 0))
    (hbytes : ∀ b ∈ value, b < 256) :
    parse_ech_config (mkSvcbEch value) =
      Except.ok (some [EchEntry.raw (base64Encode value)]) ∧
    base64Decode (base64Encode value) = some value := by
  constructor
  · have hplist : parse_ech_config_list value =
        Except.ok (some [EchEntry.raw (base64Encode value)]) := by
      rw [parse_ech_config_list, if_neg (by omega),
        byteAt_getD value 0 (by omega), byteAt_getD value 1 (by omega)]
      simp only [ok_bind]
      rw [if_pos hdecl]
    unfold parse_ech_config extract_ech_from_svcb
    rw [if_neg (show ¬ (mkSvcbEch value).length < 3 by rw [mkSvcbEch_length]; omega),
      skipTargetName_mkSvcb]
    simp only [ok_bind]
    rw [svcParamLoop_eq, svcParams_mkSvcb value hlen]
    simp [echEntriesOfParams, plistEntries, hplist]
  · exact base64_roundtrip value hbytes

theorem parse_truncated_echlist_raw_witness :
    parse_ech_config (mkSvcbEch [0, 5]) =
      Except.ok (some [EchEntry.raw (base64Encode [0, 5])]) ∧
    base64Decode (base64Encode [0, 5]) = some [0, 5] :=
  parse_truncated_echlist_raw [0, 5] (by decide) (by decide) (by decide) (by decide)

/-- ECHConfigContents wire encoding: config id, KEM id, length-prefixed
public key, length-prefixed cipher suites, maximum name length, and the
length-prefixed public name. -/
def mkEchContents (config_id kem_id : Nat) (pubkey cs : List Nat)
    (max_name_len : Nat) (name : List Nat) : List Nat :=
  [config_id] ++ u16be kem_id ++ u16be pubkey.length ++ pubkey ++
    u16be cs.length ++ cs ++ [max_name_len, name.length] ++ name

/-- ECHConfig wire encoding: draft version 0xfe0d, 2-byte contents length,
contents. -/
def mkEchConfig (contents : List Nat) : List Nat :=
  u16be 0xfe0d ++ u16be contents.length ++ contents

/-- ECHConfigList wire encoding holding a single config. -/
def mkEchConfigList (config : List Nat) : List Nat :=
  u16be config.length ++ config

theorem getElem?_prefix_cons (A : List Nat) (b : Nat) (B : List Nat) (n : Nat)
    (hn : n = A.length) : (A ++ b :: B)[n]? = some b := by
  subst hn
  rw [List.getElem?_append_right (le_refl _)]
  simp

theorem mkEchContents_length (config_id kem_id : Nat) (pubkey cs : List Nat)
    (max_name_len : Nat) (name : List Nat) :
    (mkEchContents config_id kem_id pubkey cs max_name_len name).length =
      9 + pubkey.length + cs.length + name.length := by
  simp [mkEchContents, u16be]
  omega

theorem contents_parse_mk (config_id kem_id : Nat) (pubkey cs : List Nat)
    (max_name_len : Nat) (name : List Nat) (hname : name ≠ []) :
    parse_ech_config_contents 0xfe0d
        (mkEchContents config_id kem_id pubkey cs max_name_len name) =
      Except.ok (some ⟨config_id, kem_id, name⟩) := by
  set C := mkEchContents config_id kem_id pubkey cs max_name_len name with hC
  have hnm : 1 ≤ name.length := by
    cases name with
    | nil => exact absurd rfl hname
    | cons a l => simp
  have hCl : C.length = 9 + pubkey.length + cs.length + name.length :=
    mkEchContents_length config_id kem_id pubkey cs max_name_len name
  have hb0 : byteAt C 0 = Except.ok config_id := byteAt_eq _ _ _ (by
    rw [hC]; simp [mkEchContents])
  have hb1 : byteAt C 1 = Except.ok (kem_id / 256) := byteAt_eq _ _ _ (by
    rw [hC]; simp [mkEchContents, u16be])
  have hb2 : byteAt C 2 = Except.ok (kem_id % 256) := byteAt_eq _ _ _ (by
    rw [hC]; simp [mkEchContents, u16be])
  have hb3 : byteAt C 3 = Except.ok (pubkey.length / 256) := byteAt_eq _ _ _ (by
    rw [hC]; simp [mkEchContents, u16be])
  have hb4 : byteAt C 4 = Except.ok (pubkey.length % 256) := byteAt_eq _ _ _ (by
    rw [hC]; simp [mkEchContents, u16be])
  have hshape1 : C = (config_id :: kem_id / 256 :: kem_id % 256 ::
      pubkey.length / 256 :: pubkey.length % 256 :: pubkey) ++
      (cs.length / 256 :: cs.length % 256 ::
        (cs ++ (max_name_len :: name.length :: name))) := by
    rw [hC]; simp [mkEchContents, u16be]
  have hc1 : byteAt C (5 + pubkey.length) = Except.ok (cs.length / 256) := by
    apply byteAt_eq
    rw [hshape1]
    exact getElem?_prefix_cons _ _ _ _ (by simp; omega)
  have hshape2 : C = (config_id :: kem_id / 256 :: kem_id % 256 ::
      pubkey.length / 256 :: pubkey.length % 256 :: (pubkey ++ [cs.length / 256])) ++
      (cs.length % 256 :: (cs ++ (max_name_len :: name.length :: name))) := by
    rw [hC]; simp [mkEchContents, u16be]
  have hc2 : byteAt C (5 + pubkey.length + 1) = Except.ok (cs.length % 256) := by
    apply byteAt_eq
    rw [hshape2]
    exact getElem?_prefix_cons _ _ _ _ (by simp; omega)
  have hshape3 : C = (config_id :: kem_id / 256 :: kem_id % 256 ::
      pubkey.length / 256 :: pubkey.length % 256 ::
      (pubkey ++ (cs.length / 256 :: cs.length % 256 :: (cs ++ [max_name_len])))) ++
      (name.length :: name) := by
    rw [hC]; simp [mkEchContents, u16be]
  have hnl : byteAt C (8 + pubkey.length + cs.length) = Except.ok name.length := by
    apply byteAt_eq
    rw [hshape3]
    exact getElem?_prefix_cons _ _ _ _ (by simp; omega)
  have hshape4 : C = (config_id :: kem_id / 256 :: kem_id % 256 ::
      pubkey.length / 256 :: pubkey.length % 256 ::
      (pubkey ++ (cs.length / 256 :: cs.length % 256 ::
        (cs ++ [max_name_len, name.length])))) ++ name := by
    rw [hC]; simp [mkEchContents, u16be]
  rw [parse_ech_config_contents]
  rw [if_neg (by norm_num)]
  rw [if_neg (by omega)]
  rw [hb0, hb1, hb2, hb3, hb4]
  simp only [ok_bind]
  have hkem : kem_id / 256 * 256 + kem_id % 256 = kem_id := by omega
  have hpk : pubkey.length / 256 * 256 + pubkey.length % 256 = pubkey.length := by omega
  rw [hkem, hpk]
  rw [if_neg (by omega)]
  rw [if_neg (by omega)]
  rw [hc1, hc2]
  simp only [ok_bind]
  have hcs : cs.length / 256 * 256 + cs.length % 256 = cs.length := by omega
  rw [hcs]
  rw [if_neg (by omega)]
  rw [if_neg (by omega)]
  rw [if_neg (by omega)]
  have hpos : 5 + pubkey.length + 2 + 1 = 8 + pubkey.length := by omega
  rw [show 8 + pubkey.length + cs.length = 8 + pubkey.length + cs.length from rfl]
  rw [hnl]
  simp only [ok_bind]
  rw [if_neg (by omega)]
  rw [slice_ok C _ _ (by omega) (by omega)]
  simp only [ok_bind]
  have hdrop : C.drop (9 + pubkey.length + cs.length) = name := by
    rw [hshape4]
    exact List.drop_left' (by simp; omega)
  have htake : 9 + pubkey.length + cs.length + name.length -
      (9 + pubkey.length + cs.length) = name.length := by omega
  rw [htake, hdrop, List.take_length]

theorem mkEchConfig_length (C : List Nat) : (mkEchConfig C).length = 4 + C.length := by
  simp [mkEchConfig, u16be]
  omega

theorem mkEchConfigList_length (cfg : List Nat) :
    (mkEchConfigList cfg).length = 2 + cfg.length := by
  simp [mkEchConfigList, u16be]
  omega

theorem plist_single_config (C : List Nat) (cid kem : Nat) (pname : List Nat)
    (hinfo : parse_ech_config_contents 0xfe0d C = Except.ok (some ⟨cid, kem, pname⟩)) :
    parse_ech_config_list (mkEchConfigList (mkEchConfig C)) =
      Except.ok (some [EchEntry.rich 0xfe0d cid kem pname
        (base64Encode (mkEchConfig C))]) := by
  set V := mkEchConfigList (mkEchConfig C) with hV
  have hVl : V.length = 6 + C.length := by
    rw [hV, mkEchConfigList_length, mkEchConfig_length]
    omega
  have hv0 : byteAt V 0 = Except.ok ((4 + C.length) / 256) := byteAt_eq _ _ _ (by
    rw [hV]; simp [mkEchConfigList, mkEchConfig, u16be]; omega)
  have hv1 : byteAt V 1 = Except.ok ((4 + C.length) % 256) := byteAt_eq _ _ _ (by
    rw [hV]; simp [mkEchConfigList, mkEchConfig, u16be]; omega)
  have hv2 : byteAt V 2 = Except.ok 254 := byteAt_eq _ _ _ (by
    rw [hV]; simp [mkEchConfigList, mkEchConfig, u16be])
  have hv3 : byteAt V 3 = Except.ok 13 := byteAt_eq _ _ _ (by
    rw [hV]; simp [mkEchConfigList, mkEchConfig, u16be])
  have hv4 : byteAt V 4 = Except.ok (C.length / 256) := byteAt_eq _ _ _ (by
    rw [hV]; simp [mkEchConfigList, mkEchConfig, u16be])
  have hv5 : byteAt V 5 = Except.ok (C.length % 256) := byteAt_eq _ _ _ (by
    rw [hV]; simp [mkEchConfigList, mkEchConfig, u16be])
  have hdrop2 : V.drop 2 = mkEchConfig C := by
    rw [hV, mkEchConfigList]
    exact List.drop_left' (by simp [u16be])
  have hdrop6 : V.drop 6 = C := by
    have hsh : V = (u16be (mkEchConfig C).length ++ u16be 0xfe0d ++ u16be C.length)
        ++ C := by
      rw [hV]; simp [mkEchConfigList, mkEchConfig, List.append_assoc]
    rw [hsh]
    exact List.drop_left' (by simp [u16be])
  rw [parse_ech_config_list]
  rw [if_neg (by omega)]
  rw [hv0, hv1]
  simp only [ok_bind]
  have hlistlen : (4 + C.length) / 256 * 256 + (4 + C.length) % 256 = 4 + C.length := by
    omega
  rw [hlistlen]
  rw [if_neg (by omega)]
  rw [echConfigLoop]
  rw [dif_pos (by constructor <;> omega)]
  rw [hv2, hv3, hv4, hv5]
  simp only [ok_bind]
  have hclen : C.length / 256 * 256 + C.length % 256 = C.length := by omega
  rw [hclen]
  rw [if_neg (by omega)]
  rw [slice_ok V 2 _ (by omega) (by omega), slice_ok V (2 + 4) _ (by omega) (by omega)]
  simp only [ok_bind]
  have ht1 : 2 + 4 + C.length - 2 = 4 + C.length := by omega
  have ht2 : 2 + 4 + C.length - (2 + 4) = C.length := by omega
  rw [ht1, ht2, hdrop2]
  have htk : List.take (4 + C.length) (mkEchConfig C) = mkEchConfig C := by
    rw [show 4 + C.length = (mkEchConfig C).length from (mkEchConfig_length C).symm,
      List.take_length]
  rw [htk]
  have hd6 : List.take C.length (V.drop 6) = C := by
    rw [hdrop6, List.take_length]
  rw [show (2 : Nat) + 4 = 6 from rfl]
  rw [hd6]
  rw [show (254 : Nat) * 256 + 13 = 0xfe0d from rfl]
  rw [hinfo]
  simp only [ok_bind]
  rw [echConfigLoop]
  rw [dif_neg (by rw [hVl]; omega)]
  simp

/-- Claim C6: `parse_ech_config` on a well-formed record carrying an
ECHConfigList with exactly one config of version 0xfe0d and a valid (nonempty)
publicName field yields exactly one rich entry whose reported publicName and
kemId equal those encoded in the input, and whose base64 string decodes back
to the exact original config bytes (version + length + contents). -/
theorem parse_wellformed_ech (config_id kem_id : Nat) (pubkey cs : List Nat)
    (max_name_len : Nat) (name : List Nat)
    (hname : name ≠ [])
    (hsize : 15 + pubkey.length + cs.length + name.length < 65536)
    (hbytes : ∀ b ∈ mkEchConfig
        (mkEchContents config_id kem_id pubkey cs max_name_len name), b < 256) :
    parse_ech_config (mkSvcbEch (mkEchConfigList (mkEchConfig
        (mkEchContents config_id kem_id pubkey cs max_name_len name)))) =
      Except.ok (some [EchEntry.rich 0xfe0d config_id kem_id name
        (base64Encode (mkEchConfig
          (mkEchContents config_id kem_id pubkey cs max_name_len name)))]) ∧
    base64Decode (base64Encode (mkEchConfig
        (mkEchContents config_id kem_id pubkey cs max_name_len name))) =
      some (mkEchConfig (mkEchContents config_id kem_id pubkey cs max_name_len name)) := by
  set C := mkEchContents config_id kem_id pubkey cs max_name_len name with hC
  have hplist := plist_single_config C config_id kem_id name
    (contents_parse_mk config_id kem_id pubkey cs max_name_len name hname)
  have hvlen : (mkEchConfigList (mkEchConfig C)).length < 65536 := by
    rw [mkEchConfigList_length, mkEchConfig_length, hC, mkEchContents_length]
    omega
  constructor
  · unfold parse_ech_config extract_ech_from_svcb
    rw [if_neg (show ¬ (mkSvcbEch (mkEchConfigList (mkEchConfig C))).length < 3 by
        rw [mkSvcbEch_length]; omega),
      skipTargetName_mkSvcb]
    simp only [ok_bind]
    rw [svcParamLoop_eq, svcParams_mkSvcb _ hvlen]
    simp [echEntriesOfParams, plistEntries, hplist]
  · exact base64_roundtrip _ hbytes

theorem parse_wellformed_ech_witness :
    parse_ech_config (mkSvcbEch (mkEchConfigList (mkEchConfig
        (mkEchContents 7 32 [1, 2] [3, 4] 0 [97, 98, 99])))) =
      Except.ok (some [EchEntry.rich 0xfe0d 7 32 [97, 98, 99]
        (base64Encode (mkEchConfig (mkEchContents 7 32 [1, 2] [3, 4] 0 [97, 98, 99])))]) ∧
    base64Decode (base64Encode (mkEchConfig
        (mkEchContents 7 32 [1, 2] [3, 4] 0 [97, 98, 99]))) =
      some (mkEchConfig (mkEchContents 7 32 [1, 2] [3, 4] 0 [97, 98, 99])) :=
  parse_wellformed_ech 7 32 [1, 2] [3, 4] 0 [97, 98, 99]
    (by decide) (by decide) (by decide)

theorem plist_concrete_00 :
    parse_ech_config_list [0, 0] = Except.ok (some [EchEntry.raw (base64Encode [0, 0])]) := by
  rw [parse_ech_config_list]
  norm_num [byteAt]
  rw [echConfigLoop]
  norm_num

theorem svcloop_concrete :
    svcParamLoop [0, 0, 0, 0, 5, 0, 2, 0, 0] 3 [] =
      Except.ok [EchEntry.raw (base64Encode [0, 0])] := by
  rw [svcParamLoop]
  norm_num [byteAt, slice, plist_concrete_00]
  rw [svcParamLoop]
  norm_num

theorem parse_concrete_raw :
    parse_ech_config [0, 0, 0, 0, 5, 0, 2, 0, 0] =
      Except.ok (some [EchEntry.raw (base64Encode [0, 0])]) := by
  rw [parse_ech_config, extract_ech_from_svcb]
  norm_num
  rw [skipTargetName]
  norm_num [byteAt, svcloop_concrete]

theorem parse_ech_config_none_cases_witness :
    parse_ech_config [0, 0, 0, 0, 1, 0, 2, 0, 0] = Except.ok none :=
  (parse_ech_config_none_cases [0, 0, 0, 0, 1, 0, 2, 0, 0] 3
      (by rw [skipTargetName]; norm_num [byteAt])).1
    (by
      have hs : svcParams [0, 0, 0, 0, 1, 0, 2, 0, 0] 3 = [(1, [0, 0])] := by
        rw [svcParams]
        norm_num
        rw [svcParams]
        norm_num
      simp [hs])

/-- Claim C10: `parse_ech_config` never returns `some` of an empty list: a
`some` result always carries at least one entry. -/
theorem parse_ech_config_never_some_nil (data : List Nat) (l : List EchEntry)
    (h : parse_ech_config data = Except.ok (some l)) : l ≠ [] := by
  obtain ⟨r, hr⟩ := extract_ok data
  unfold parse_ech_config at h
  rw [hr] at h
  simp only [ok_bind] at h
  cases r with
  | none => simp at h
  | some entries =>
    by_cases he : entries.isEmpty = true
    · simp [he] at h
    · simp only [he, Bool.false_eq_true, if_false, Except.ok.injEq, Option.some.injEq] at h
      subst h
      intro hnil
      rw [hnil] at he
      exact he rfl

theorem parse_ech_config_never_some_nil_witness :
    [EchEntry.raw (base64Encode [0, 0])] ≠ ([] : List EchEntry) :=
  parse_ech_config_never_some_nil [0, 0, 0, 0, 5, 0, 2, 0, 0] _ parse_concrete_raw

/-- Claim C4: the ECH parser never panics on any byte buffer whatsoever:
`parse_ech_config` and each of its stages — the SVCB walk, the ECHConfigList
parser and the ECHConfigContents parser — always return a value (every slice
access is bounds-guarded, so the panic outcome `Except.error ()` of the
index/slice model is unreachable), with bounds violations degrading to
stopping early, `none`, or the raw base64 fallback. -/
theorem ech_parser_never_panics (data : List Nat) (version : Nat) :
    (∃ v, parse_ech_config data = Except.ok v) ∧
    (∃ v, extract_ech_from_svcb data = Except.ok v) ∧
    (∃ v, parse_ech_config_list data = Except.ok v) ∧
    (∃ v, parse_ech_config_contents version data = Except.ok v) :=
  ⟨parse_ok data, extract_ok data, plist_ok data, contents_ok version data⟩

end SecureDns
